import Mathlib

/-!
Shallow embedding of `src/python/atcaipmi/monitor.py` (slaclab/smurf-atca-monitor).

The definitions below translate, from the source, the pieces of the ATCA IPMI
monitor that the verified claims are about:

* the EEPROM decoders `_read_amc_eeprom` / `_read_rtm_eeprom` (marker-driven
  cursor walk over a dumped byte array, with Python `bytearray.find` and slice
  semantics, including the `-1` "not found" behaviour);
* the EEPROM acquisition loop (16-byte raw-command slices, abort on a non-zero
  completion code) and the merge its Static-mode caller performs on the result;
* `_read_sensor` with its null/absent sensor-reference short-circuit and its
  exception handlers;
* the product-info-area decoder `_read_fru_product_info`;
* the SDR iteration control flow of `_scan_sensors` / `_search_sensors`
  (which entries survive a mid-stream completion-code error or timeout) and
  their `device_id_string` sanitization;
* the Static-mode `_polling` loop: per-cycle callback dispatch, the
  `need_search_sensors` re-arm/clear state machine, and the poll-period /
  minimum-period sleep accounting.

Machine bytes are `Fin 256`; Python strings of latin-1 characters are Lean
`String`s built from `Char.ofNat`; wall-clock instants are rationals; fallible
Python code (an uncaught exception) is `Except String`.
-/

namespace AtcaMonitor

/-- A machine byte, as stored in bytearrays and `device_id_string`s. -/
abbrev Byte := Fin 256

/-- Python `"%c" % b`: the byte as a (latin-1) character. -/
def charOfByte (b : Byte) : Char := Char.ofNat b.val

/-- One hexadecimal digit, lowercase, of a value below 16. -/
def hexDigit (n : Nat) : Char :=
  if n < 10 then Char.ofNat (48 + n) else Char.ofNat (87 + n)

/-- Python `"%02x" % b` applied to each byte and joined: two lowercase hex
digits per byte, no separator. -/
def hexOfBytes : List Byte → List Char
  | [] => []
  | b :: bs => hexDigit (b.val / 16) :: hexDigit (b.val % 16) :: hexOfBytes bs

/-- The sixteen lowercase hexadecimal digit characters. -/
def hexCharList : List Char := "0123456789abcdef".data

/-- Python `str.replace(a, b)` for single characters. -/
def pyReplaceChar (s : String) (a b : Char) : String :=
  String.mk (s.data.map fun c => if c = a then b else c)

/-- The whitespace characters stripped by Python `strip()` (ASCII range). -/
def isPyWs (c : Char) : Bool :=
  c = ' ' || c = Char.ofNat 9 || c = Char.ofNat 10 || c = Char.ofNat 11 ||
  c = Char.ofNat 12 || c = Char.ofNat 13

/-- Python `str.strip()`: drop leading and trailing whitespace. -/
def pyStrip (s : String) : String :=
  String.mk (((s.data.dropWhile isPyWs).reverse.dropWhile isPyWs).reverse)

/-- Whitespace test on raw bytes, for stripping byte-valued fields. -/
def isWsByte (b : Byte) : Bool :=
  b.val = 32 || b.val = 9 || b.val = 10 || b.val = 11 || b.val = 12 || b.val = 13

/-- `strip()` on a byte-valued field. -/
def pyStripBytes (bs : List Byte) : List Byte :=
  ((bs.dropWhile isWsByte).reverse.dropWhile isWsByte).reverse

/-- Clamping of a (possibly negative) Python index for `find`/slice starts:
a negative index counts from the end, truncated at zero. -/
def pyStart (len : Nat) (s : Int) : Nat :=
  if s < 0 then ((len : Int) + s).toNat else s.toNat

/-- First index at which the byte `m` occurs, if any. -/
def findIdxO (m : Byte) : List Byte → Option Nat
  | [] => none
  | b :: bs => if b = m then some 0 else (findIdxO m bs).map (· + 1)

/-- Python `bytearray.find(m, s)`: the lowest index `≥ s` holding `m`,
or `-1` when there is none. -/
def bytesFind (bs : List Byte) (m : Byte) (s : Int) : Int :=
  match findIdxO m (bs.drop (pyStart bs.length s)) with
  | some i => ((pyStart bs.length s + i : Nat) : Int)
  | none => -1

/-- Python slice `bs[a:b]` with int endpoints (negative indices count from
the end; out-of-range endpoints are clamped). -/
def pySlice (bs : List Byte) (a b : Int) : List Byte :=
  (bs.take (pyStart bs.length b)).drop (pyStart bs.length a)

/-- Number of occurrences of the byte `m`. -/
def countO (m : Byte) : List Byte → Nat
  | [] => 0
  | b :: bs => (if b = m then 1 else 0) + countO m bs

/-- The two per-byte output formats used by the EEPROM field maps
(`'%c'` and `'%02x'` in the source). -/
inductive FmtKind where
  | char
  | hex2
deriving DecidableEq

/-- Apply a field's format to a byte slice, joining into one string. -/
def fmtBytes : FmtKind → List Byte → String
  | .char, bs => String.mk (bs.map charOfByte)
  | .hex2, bs => String.mk (hexOfBytes bs)

/-- One entry of an EEPROM field map: target field name, terminating marker
byte, cursor step past the marker, and per-byte format. -/
structure FieldSpec where
  name : String
  marker : Byte
  step : Int
  fmt : FmtKind
deriving DecidableEq

/-- The AMC EEPROM field map of `_read_amc_eeprom` (monitor.py lines 495-505),
in declared order. -/
def amcMemMap : List FieldSpec :=
  [⟨"Product_Mfg_Name", 0xc0, 2, .char⟩,
   ⟨"Product_Part_Number", 0xc3, 1, .char⟩,
   ⟨"Product_Version", 0x08, 1, .char⟩,
   ⟨"Product_Serial_No", 0xe0, 1, .hex2⟩,
   ⟨"Product_Asset_Tag", 0x00, 1, .char⟩]

/-- The RTM EEPROM field map of `_read_rtm_eeprom` (monitor.py lines 553-565),
in declared order. -/
def rtmMemMap : List FieldSpec :=
  [⟨"Product_Mfg_Name", 0xd3, 1, .char⟩,
   ⟨"Product_Name", 0xd1, 1, .char⟩,
   ⟨"Product_Part_Number", 0xc3, 1, .char⟩,
   ⟨"Product_Version", 0x08, 1, .char⟩,
   ⟨"Product_Serial_No", 0xe0, 1, .hex2⟩,
   ⟨"Product_Asset_Tag", 0x00, 1, .char⟩]

/-- The cursor walk of `_read_amc_eeprom` / `_read_rtm_eeprom`
(monitor.py lines 526-534 and 586-594): for each field in declared order,
`s2 = eeprom.find(marker, s1)`, emit `format(eeprom[s1:s2])`, and advance
`s1 = s2 + step`. -/
def decodeFields : List FieldSpec → Int → List Byte → List (String × String)
  | [], _, _ => []
  | f :: rest, s1, e =>
    let s2 := bytesFind e f.marker s1
    (f.name, fmtBytes f.fmt (pySlice e s1 s2)) :: decodeFields rest (s2 + f.step) e

/-- Whether every `find` of the cursor walk succeeds (returns a non-negative
index) when started at cursor `s1`. -/
def decodeFindsOk : List FieldSpec → Int → List Byte → Bool
  | [], _, _ => true
  | f :: rest, s1, e =>
    let s2 := bytesFind e f.marker s1
    decide (0 ≤ s2) && decodeFindsOk rest (s2 + f.step) e

/-- Rendering of claim C6's wording: `s2_k` is *the* position of field `k`'s
marker — located by searching from the fixed starting cursor `start0`, which
under the claim's exactly-once hypothesis is the marker's unique occurrence —
and the next cursor is `s2_k + step_k`. -/
def claimDecodeFields : List FieldSpec → Int → Int → List Byte → List (String × String)
  | [], _, _, _ => []
  | f :: rest, start0, s1, e =>
    let s2 := bytesFind e f.marker start0
    (f.name, fmtBytes f.fmt (pySlice e s1 s2)) :: claimDecodeFields rest start0 (s2 + f.step) e

/-- One response of `ipmi.raw_command`: the completion code (its first byte)
and the remaining payload bytes. -/
structure Resp where
  cc : Byte
  data : List Byte
deriving DecidableEq

/-- The EEPROM acquisition loop (monitor.py lines 508-522 and 568-582):
concatenate the payloads of the slice reads, or `none` as soon as a response
carries a non-zero completion code (the decoder is then never reached). -/
def collectEeprom : List Resp → Option (List Byte)
  | [] => some []
  | r :: rest => if r.cc = 0 then (collectEeprom rest).map (r.data ++ ·) else none

/-- `_read_amc_eeprom`: acquire the dump (10 slices in the source), then run
the AMC field map from cursor 0x4c; `none` models the early `return` (Python
`None`) on a bad completion code. -/
def read_amc_eeprom (resps : List Resp) : Option (List (String × String)) :=
  (collectEeprom resps).map fun e => decodeFields amcMemMap (0x4c : Int) e

/-- `_read_rtm_eeprom`: same with the RTM field map from cursor 0x74. -/
def read_rtm_eeprom (resps : List Resp) : Option (List (String × String)) :=
  (collectEeprom resps).map fun e => decodeFields rtmMemMap (0x74 : Int) e

/-- Python dict assignment `d[k] = v` on an insertion-ordered dict. -/
def dictSet (d : List (String × String)) (k v : String) : List (String × String) :=
  if d.any fun p => p.1 = k then d.map fun p => if p.1 = k then (k, v) else p
  else d ++ [(k, v)]

/-- Python `d.update(u)` on insertion-ordered dicts. -/
def dictUpdate (d u : List (String × String)) : List (String × String) :=
  u.foldl (fun acc p => dictSet acc p.1 p.2) d

/-- The Static-mode per-bay AMC block of `_polling` (monitor.py lines 877-883):
store the probed ID, and when it is non-empty evaluate
`AMCInfo[j].update(self._read_amc_eeprom(j).copy())`. When `_read_amc_eeprom`
returned `None`, the `.copy()` attribute access raises `AttributeError`;
there is no enclosing handler in `_polling`, so the cycle is torn down. -/
def amcBayMergeStatic (prev : List (String × String)) (idStr : String)
    (resps : List Resp) : Except String (List (String × String)) :=
  let prev1 := dictSet prev "ID" idStr
  if idStr = "" then Except.ok prev1
  else
    match read_amc_eeprom resps with
    | none => Except.error "AttributeError"
    | some d => Except.ok (dictUpdate prev1 d)

/-- A stored `AMCInfo` dict before the merge, with previously decoded fields. -/
def prevAmcInfo : List (String × String) :=
  [("ID", ""), ("Product_Mfg_Name", "OLD"), ("Product_Serial_No", "0102")]

/-- Ten slice responses whose first response carries completion code 0xff. -/
def badAmcResps : List Resp :=
  ⟨0xff, List.replicate 16 0⟩ :: List.replicate 9 ⟨0, List.replicate 16 0⟩

/-- A dump satisfying claim C6's hypothesis (every AMC marker occurs exactly
once at or after 0x4c) but where `Product_Part_Number`'s marker 0xc3 sits
before the cursor reached after the first field, so the decoder's `find`
returns -1 there. -/
def dumpMarkersOnceBad : List Byte :=
  List.replicate 0x4c 0x01 ++
  [0x01, 0xc3, 0x01, 0xc0, 0x41, 0x42, 0x08, 0xe0, 0x31, 0x00, 0x02, 0x03]

/-- A dump whose AMC markers occur exactly once at or after 0x4c and in
cursor-compatible positions (every `find` of the walk succeeds). -/
def dumpMarkersOnceGood : List Byte :=
  List.replicate 0x4c 0x01 ++
  [0x41, 0xc0, 0x42, 0x43, 0xc3, 0x44, 0x08, 0x45, 0xe0, 0x46, 0x00, 0x47]

/-- Scalar values as Python returns them from `_read_sensor`: the implicit
`None`, an int, a converted (float) reading, or a string. -/
inductive PyVal where
  | none
  | int (n : Int)
  | float (q : ℚ)
  | str (s : String)
deriving DecidableEq

/-- The SDR handle stored under the `'sensor'` key of a sensor dict: the
sensor number and `convert_sensor_raw_to_value`. -/
structure SdrRef where
  number : Nat
  convert : Int → ℚ

/-- A sensor dict as `_read_sensor` sees it: its `'type'` string and the
`'sensor'` entry (`none` = key absent, `some none` = stored `None`). -/
structure SensorLeaf where
  stype : String
  sensorRef : Option (Option SdrRef)

/-- Outcome of `ipmi.get_sensor_reading(number)`: a raw reading (possibly
`None`), a `CompletionCodeError`, or an `IpmiTimeoutError`. -/
inductive ReadResult where
  | ok (raw : Option Int)
  | ccError (cc : Nat)
  | timeout

/-- `_read_sensor` (monitor.py lines 357-395): 0 when the sensor reference is
absent or `None` (before any transport call); otherwise read; a `None` raw
reading falls off the end of the function (Python returns `None`); a raw
value is converted for `'full'` sensors and returned as-is otherwise; both
transport exceptions are caught and return 0. -/
def read_sensor (t : Nat → ReadResult) (leaf : SensorLeaf) : PyVal :=
  match leaf.sensorRef with
  | Option.none => PyVal.int 0
  | some Option.none => PyVal.int 0
  | some (some ref) =>
    match t ref.number with
    | .ok Option.none => PyVal.none
    | .ok (some raw) =>
      if leaf.stype = "full" then PyVal.float (ref.convert raw) else PyVal.int raw
    | .ccError _ => PyVal.int 0
    | .timeout => PyVal.int 0

/-- Rendering of claim C2's wording, which says a `None` raw reading also
returns 0. -/
def claimReadSensor (t : Nat → ReadResult) (leaf : SensorLeaf) : PyVal :=
  match leaf.sensorRef with
  | Option.none => PyVal.int 0
  | some Option.none => PyVal.int 0
  | some (some ref) =>
    match t ref.number with
    | .ok Option.none => PyVal.int 0
    | .ok (some raw) =>
      if leaf.stype = "full" then PyVal.float (ref.convert raw) else PyVal.int raw
    | .ccError _ => PyVal.int 0
    | .timeout => PyVal.int 0

/-- A concrete bound sensor leaf of type `'full'`. -/
def fullLeaf : SensorLeaf := ⟨"full", some (some ⟨7, fun r => (r : ℚ) / 2⟩)⟩

/-- A leaf whose `'sensor'` key is absent. -/
def unboundLeaf : SensorLeaf := ⟨"full", Option.none⟩

/-- A transport whose reading is present but `None`. -/
def nullReadingTransport : Nat → ReadResult := fun _ => ReadResult.ok Option.none

/-- A transport that times out on every reading. -/
def timeoutTransport : Nat → ReadResult := fun _ => ReadResult.timeout

/-- Abstracted outcome of processing one SDR entry inside the iteration loop
of `_scan_sensors` / `_search_sensors`: the entry contributed the sensor
`name`, or its processing raised a `CompletionCodeError`, or a timeout. -/
inductive EntryStep where
  | ok (name : String)
  | ccError
  | timeout
deriving DecidableEq

/-- The names accumulated by `_scan_sensors`' entry loop (monitor.py lines
149-223): a completion-code error handler `return`s (aborting the loop, keeping
what was added), while the timeout handler only logs — the loop continues with
the next entry. -/
def scan_sensors : List EntryStep → List String
  | [] => []
  | .ok n :: rest => n :: scan_sensors rest
  | .ccError :: _ => []
  | .timeout :: rest => scan_sensors rest

/-- The names bound by `_search_sensors`' entry loop (monitor.py lines
277-312): both handlers `return`, so either error kind aborts the loop,
keeping what was bound so far. -/
def search_sensors : List EntryStep → List String
  | [] => []
  | .ok n :: rest => n :: search_sensors rest
  | .ccError :: _ => []
  | .timeout :: _ => []

/-- `''.join("%c" % b for b in s.device_id_string)`. -/
def decodeIdString (bs : List Byte) : String := String.mk (bs.map charOfByte)

/-- The tree key `_scan_sensors` derives from `device_id_string`
(monitor.py lines 153-155): decode, then `.replace(" ", "_").replace(".", "_")`. -/
def scan_name (bs : List Byte) : String :=
  pyReplaceChar (pyReplaceChar (decodeIdString bs) ' ' '_') '.' '_'

/-- The key `_search_sensors` derives (monitor.py lines 280-282): decode,
then only `.replace(" ", "_")` — no dot replacement. -/
def search_name (bs : List Byte) : String :=
  pyReplaceChar (decodeIdString bs) ' ' '_'

/-- The `name in d` membership test of `_search_sensors` against the
pre-materialized keys. -/
def search_matches (keys : List String) (bs : List Byte) : Bool :=
  keys.contains (search_name bs)

/-- `device_id_string` bytes of `"A.B"`. -/
def dottedIdBytes : List Byte := [0x41, 0x2e, 0x42]

/-- `device_id_string` bytes of `"A B"`. -/
def spacedIdBytes : List Byte := [0x41, 0x20, 0x42]

/-- A leaf as the Static-mode cycle loops see it: its current value and
whether `set_sensor_cb` attached a callback. -/
structure CbLeaf where
  value : PyVal
  hasCallback : Bool
deriving DecidableEq

/-- The crate half of a `_polling` cycle (monitor.py lines 825-848), per child
of `Crate`: `FanTrays` and `CrateInfo` keep their value (fans update nested
leaves; crate info is static), every other child is re-read; afterwards the
callback, when attached, is invoked once with the child's current value. The
third component lists the values the callback is invoked with. -/
def crate_cycle (readVal : String → PyVal) (children : List (String × CbLeaf)) :
    List (String × CbLeaf × List PyVal) :=
  children.map fun p =>
    let l : CbLeaf :=
      if p.1 = "FanTrays" ∨ p.1 = "CrateInfo" then p.2 else ⟨readVal p.1, p.2.hasCallback⟩
    (p.1, l, if p.2.hasCallback then [l.value] else [])

/-- The slot half of a `_polling` cycle (monitor.py lines 893-903), per child
of `Slots[i]`: children other than `ID`, `AMCInfo`, `CarrierInfo`, `RTMInfo`
are re-read; no callback is ever invoked in this loop. -/
def slot_cycle (readVal : String → PyVal) (children : List (String × CbLeaf)) :
    List (String × CbLeaf × List PyVal) :=
  children.map fun p =>
    let l : CbLeaf :=
      if p.1 = "ID" ∨ p.1 = "AMCInfo" ∨ p.1 = "CarrierInfo" ∨ p.1 = "RTMInfo" then p.2
      else ⟨readVal p.1, p.2.hasCallback⟩
    (p.1, l, ([] : List PyVal))

/-- What one cycle of the Static `_polling` slot block (monitor.py lines
851-907) does for one slot, beyond reading sensors: the `need_search_sensors`
flag after the cycle and the counts of `_search_sensors` calls, Carrier
product-info merges, AMC ID probes and RTM ID probes it performed. -/
structure SlotCycleOut where
  flag : Bool
  searches : Nat
  carrierMerges : Nat
  amcProbes : Nat
  rtmProbes : Nat
deriving DecidableEq

/-- One slot's cycle step as a function of the flag and the Carrier ID read:
an empty ID re-arms the flag and skips everything; a non-empty ID with the
flag set performs one product-info merge, one `_search_sensors` call, two AMC
ID probes and one RTM ID probe and clears the flag; otherwise nothing. -/
def slot_flag_step (flag : Bool) (idStr : String) : SlotCycleOut :=
  if idStr = "" then ⟨true, 0, 0, 0, 0⟩
  else if flag then ⟨false, 1, 1, 2, 1⟩
  else ⟨false, 0, 0, 0, 0⟩

/-- The flag after running a sequence of cycles with the given Carrier ID
reads. -/
def flag_after (flag : Bool) : List String → Bool
  | [] => flag
  | idStr :: rest => flag_after (slot_flag_step flag idStr).flag rest

/-- The per-cycle outputs of a sequence of cycles for one slot. -/
def slot_flag_run (flag : Bool) : List String → List SlotCycleOut
  | [] => []
  | idStr :: rest =>
    slot_flag_step flag idStr :: slot_flag_run (slot_flag_step flag idStr).flag rest

/-- The loop state of `_polling`'s timing code: the timestamp at which the
current cycle starts and the `now` variable (last captured reference). -/
structure PollSt where
  start : ℚ
  ref : ℚ
deriving DecidableEq

/-- One cycle's timing record: cycle start, end of the cycle's work (where
`poll_period` is computed and `now` re-captured), the measured `poll_period`,
and the sleep performed. -/
structure CycleRec where
  start : ℚ
  workEnd : ℚ
  period : ℚ
  slp : ℚ
deriving DecidableEq

/-- The timing skeleton of `_polling` (monitor.py lines 817-916): given each
cycle's work duration, produce the cycle records. `poll_period` is measured
against the previous `now`, `now` is re-captured *before* the sleep, and the
engine sleeps for the deficit when the measured period is below the minimum. -/
def poll_run (minP : ℚ) : PollSt → List ℚ → List CycleRec
  | _, [] => []
  | st, w :: ws =>
    let e := st.start + w
    let pp := e - st.ref
    let slp := if pp < minP then minP - pp else 0
    ⟨st.start, e, pp, slp⟩ :: poll_run minP ⟨e + slp, e⟩ ws

/-- `l.get?`-style lookup used by the timing theorems. -/
def nthO {α : Type} : List α → Nat → Option α
  | [], _ => none
  | x :: _, 0 => some x
  | _ :: xs, k + 1 => nthO xs k

/-- A field of a product-info area record: a `FruDataField` carrying bytes,
or an attribute of any other type. -/
inductive AreaVal where
  | fruField (value : List Byte)
  | other
deriving DecidableEq

/-- Whether an attribute is a `FruDataField` (the exact-type test of the
source). -/
def isFruField : AreaVal → Bool
  | .fruField _ => true
  | .other => false

/-- `_read_fru_product_info` (monitor.py lines 432-478) over the enumerated
`(name, attribute)` pairs of the product-info area: keep non-`data`
`FruDataField`s; the name is stripped, spaces become `_`, and a resulting
`name` is rewritten to `Name`; a `serial_number` value is hex-encoded, any
other value is stripped and decoded as characters. -/
def read_fru_product_info : List (String × AreaVal) → List (String × String)
  | [] => []
  | (k, v) :: rest =>
    match v with
    | .other => read_fru_product_info rest
    | .fruField bs =>
      if k = "data" then read_fru_product_info rest
      else
        let n0 := pyReplaceChar (pyStrip k) ' ' '_'
        let n := if n0 = "name" then "Name" else n0
        let val := if n = "serial_number" then String.mk (hexOfBytes bs)
                   else String.mk ((pyStripBytes bs).map charOfByte)
        (n, val) :: read_fru_product_info rest

/-- Rendering of claim C9's wording for the field name: spaces are replaced
with `_` (no trimming), and a literal `name` becomes `Name`. -/
def claimFruFieldName (k : String) : String :=
  let n0 := pyReplaceChar k ' ' '_'
  if n0 = "name" then "Name" else n0

/-- Rendering of claim C9's wording for the whole decoder. -/
def claimFruProductInfo (r : List (String × AreaVal)) : List (String × String) :=
  (r.filter fun p => decide (p.1 ≠ "data") && isFruField p.2).map fun p =>
    match p.2 with
    | .fruField bs =>
      let n := claimFruFieldName p.1
      (n, if n = "serial_number" then String.mk (hexOfBytes bs)
          else String.mk ((pyStripBytes bs).map charOfByte))
    | .other => ("", "")

/-- The amended field-name processing: trim surrounding whitespace first,
then replace spaces and rename `name`. -/
def amendedFruFieldName (k : String) : String :=
  let n0 := pyReplaceChar (pyStrip k) ' ' '_'
  if n0 = "name" then "Name" else n0

/-- The amended decoder: keep exactly the non-`data` `FruDataField`s, with
amended name processing and the source's value encoding. -/
def amendedFruProductInfo (r : List (String × AreaVal)) : List (String × String) :=
  (r.filter fun p => decide (p.1 ≠ "data") && isFruField p.2).map fun p =>
    match p.2 with
    | .fruField bs =>
      let n := amendedFruFieldName p.1
      (n, if n = "serial_number" then String.mk (hexOfBytes bs)
          else String.mk ((pyStripBytes bs).map charOfByte))
    | .other => ("", "")

/-- A product-info record whose one field name carries surrounding spaces. -/
def paddedNameRecord : List (String × AreaVal) :=
  [("a b ", AreaVal.fruField [0x41])]

end AtcaMonitor

namespace AtcaMonitor

/-! ## Helper lemmas -/

/-- Mapping a function that fixes every element of a list is the identity. -/
theorem list_map_self {α : Type} (l : List α) (f : α → α) (h : ∀ c ∈ l, f c = c) :
    l.map f = l := by
  induction l with
  | nil => rfl
  | cons c cs ih =>
    simp only [List.map_cons, h c (List.mem_cons_self c cs)]
    exact congrArg _ (ih fun x hx => h x (List.mem_cons_of_mem c hx))

/-- Dropping a prefix cannot increase the number of occurrences. -/
theorem countO_drop_le (m : Byte) : ∀ (c : Nat) (l : List Byte), countO m (l.drop c) ≤ countO m l := by
  intro c
  induction c with
  | zero => intro l; simp
  | succ c ih =>
    intro l
    cases l with
    | nil => simp
    | cons b bs =>
      calc countO m ((b :: bs).drop (c + 1)) = countO m (bs.drop c) := rfl
        _ ≤ countO m bs := ih bs
        _ ≤ countO m (b :: bs) := by simp only [countO]; omega

/-- A successful `findIdxO` needs at least one occurrence. -/
theorem findIdxO_some_pos (m : Byte) :
    ∀ (l : List Byte) (i : Nat), findIdxO m l = some i → 0 < countO m l := by
  intro l
  induction l with
  | nil => intro i h; simp [findIdxO] at h
  | cons b bs ih =>
    intro i h
    by_cases hb : b = m
    · simp [countO, hb]
    · simp only [findIdxO, if_neg hb, Option.map_eq_some'] at h
      obtain ⟨i', hi', _⟩ := h
      have := ih i' hi'
      simp only [countO, if_neg hb]
      omega

/-- When `m` occurs exactly once in `l`, a find succeeding in `l.drop c`
locates the same (unique) occurrence as a find on all of `l`. -/
theorem findIdxO_drop_unique (m : Byte) :
    ∀ (c : Nat) (l : List Byte) (i : Nat), countO m l = 1 →
      findIdxO m (l.drop c) = some i → findIdxO m l = some (c + i) := by
  intro c
  induction c with
  | zero => intro l i _ h2; simpa using h2
  | succ c ih =>
    intro l i h1 h2
    cases l with
    | nil => simp [findIdxO] at h2
    | cons b bs =>
      rw [show (b :: bs).drop (c + 1) = bs.drop c from rfl] at h2
      by_cases hb : b = m
      · exfalso
        have hz : countO m bs = 0 := by simp only [countO, if_pos hb] at h1; omega
        have h3 := findIdxO_some_pos m (bs.drop c) i h2
        have h4 := countO_drop_le m c bs
        omega
      · have h1' : countO m bs = 1 := by simp only [countO, if_neg hb] at h1; omega
        have h5 := ih bs i h1' h2
        have he : c + i + 1 = c + 1 + i := by omega
        simp [findIdxO, hb, h5, he]

/-- `pyStart` on a natural index is that index. -/
theorem pyStart_natCast (len k : Nat) : pyStart len (k : Int) = k := by
  simp [pyStart]

/-- `pyStart` on the index `-1` is the last position. -/
theorem pyStart_negOne (len : Nat) : pyStart len (-1) = len - 1 := by
  simp only [pyStart, if_pos (by omega : (-1 : Int) < 0)]
  omega

/-- A failed search at a natural cursor makes `bytesFind` return `-1`. -/
theorem bytesFind_eq_neg_one (e : List Byte) (m : Byte) (s1 : Nat)
    (hmiss : findIdxO m (e.drop s1) = none) : bytesFind e m (s1 : Int) = -1 := by
  unfold bytesFind
  rw [pyStart_natCast, hmiss]

/-- A Python slice `e[s1:-1]` is everything from `s1` on except the very
last byte. -/
theorem pySlice_negOne (e : List Byte) (s1 : Nat) :
    pySlice e (s1 : Int) (-1) = (e.drop s1).dropLast := by
  unfold pySlice
  rw [pyStart_natCast, pyStart_negOne, List.drop_take, List.dropLast_eq_take, List.length_drop]
  congr 1
  omega

end AtcaMonitor

namespace AtcaMonitor

/-! ## Claim C1 -/

/-- Claim C1 (code bug): when an AMC EEPROM slice read returns a non-zero
completion code, `_read_amc_eeprom` does abort decoding (it returns `None`,
so no field of the device is rewritten), but the Static-mode cycle then
evaluates `None.copy()` and raises `AttributeError` instead of continuing
with the remaining targets. -/
theorem amc_eeprom_abort_crashes_merge :
    read_amc_eeprom badAmcResps = Option.none ∧
    amcBayMergeStatic prevAmcInfo "a1b2" badAmcResps = Except.error "AttributeError" :=
  ⟨rfl, rfl⟩

/-! ## Claim C2 -/

/-- Claim C2 (counterexample): with a bound sensor and a transport whose
reading succeeds but carries a `None` raw value, `_read_sensor` returns
Python `None` (it falls off the end of the function), while the claim says
it returns 0. -/
theorem read_sensor_null_raw_counterexample :
    read_sensor nullReadingTransport fullLeaf = PyVal.none ∧
    claimReadSensor nullReadingTransport fullLeaf = PyVal.int 0 ∧
    PyVal.none ≠ PyVal.int 0 :=
  ⟨rfl, rfl, by decide⟩

/-- Claim C2 (amended): `_read_sensor` returns 0 for an absent or `None`
sensor reference without consulting the transport; otherwise it reads, and
returns `None` when the raw reading is `None`, the converted value for a
`'full'` sensor, the raw reading for any other type, and 0 on a
completion-code error or a timeout. -/
theorem read_sensor_amended_behavior (t : Nat → ReadResult) (leaf : SensorLeaf) :
    ((leaf.sensorRef = Option.none ∨ leaf.sensorRef = some Option.none) →
      read_sensor t leaf = PyVal.int 0 ∧
      ∀ t' : Nat → ReadResult, read_sensor t' leaf = read_sensor t leaf) ∧
    (∀ ref : SdrRef, leaf.sensorRef = some (some ref) →
      (t ref.number = ReadResult.ok Option.none → read_sensor t leaf = PyVal.none) ∧
      (∀ raw : Int, t ref.number = ReadResult.ok (some raw) →
        read_sensor t leaf =
          if leaf.stype = "full" then PyVal.float (ref.convert raw) else PyVal.int raw) ∧
      (∀ cc : Nat, t ref.number = ReadResult.ccError cc → read_sensor t leaf = PyVal.int 0) ∧
      (t ref.number = ReadResult.timeout → read_sensor t leaf = PyVal.int 0)) := by
  constructor
  · rintro (h | h) <;>
      exact ⟨by simp [read_sensor, h], fun t' => by simp [read_sensor, h]⟩
  · intro ref href
    refine ⟨fun h => ?_, fun raw h => ?_, fun cc h => ?_, fun h => ?_⟩ <;>
      simp [read_sensor, href, h]

/-- Witness for C2's amended theorem at concrete leaves and transports. -/
theorem read_sensor_amended_behavior_witness :
    read_sensor nullReadingTransport fullLeaf = PyVal.none ∧
    read_sensor nullReadingTransport unboundLeaf = read_sensor timeoutTransport unboundLeaf :=
  ⟨((read_sensor_amended_behavior nullReadingTransport fullLeaf).2
      ⟨7, fun r => (r : ℚ) / 2⟩ rfl).1 rfl,
   ((read_sensor_amended_behavior timeoutTransport unboundLeaf).1 (Or.inl rfl)).2
      nullReadingTransport⟩

/-! ## Claim C4 -/

/-- Claim C4 (counterexample): a slot-level sensor leaf with a registered
callback is successfully updated by the cycle, yet its callback is invoked
zero times, not once. -/
theorem slot_callback_never_invoked_counterexample :
    slot_cycle (fun _ => PyVal.int 5) [("Hot_Swap", ⟨PyVal.int 0, true⟩)] =
      [("Hot_Swap", ⟨PyVal.int 5, true⟩, [])] ∧
    ([] : List PyVal) ≠ [PyVal.int 5] :=
  ⟨rfl, by decide⟩

/-- Claim C4 (amended): in a Static-mode cycle, every crate-level child with
a callback has it invoked exactly once, with the child's value after the
cycle's update; slot-level children never have a callback invoked. -/
theorem callback_invocation_amended (readVal : String → PyVal)
    (cs : List (String × CbLeaf)) :
    (crate_cycle readVal cs).map (fun e => e.2.2) =
      cs.map (fun p => if p.2.hasCallback
        then [if p.1 = "FanTrays" ∨ p.1 = "CrateInfo" then p.2.value else readVal p.1]
        else []) ∧
    (slot_cycle readVal cs).map (fun e => e.2.2) = cs.map (fun _ => []) := by
  constructor
  · induction cs with
    | nil => rfl
    | cons p ps ih =>
      simp only [crate_cycle, List.map_cons] at ih ⊢
      refine congrArg₂ _ ?_ ih
      by_cases h1 : p.1 = "FanTrays" ∨ p.1 = "CrateInfo" <;> simp [h1]
  · induction cs with
    | nil => rfl
    | cons p ps ih =>
      simp only [slot_cycle, List.map_cons] at ih ⊢
      exact congrArg₂ _ rfl ih

/-! ## Claim C7 -/

/-- Claim C7 (counterexample): a timeout on an entry of `_scan_sensors` does
not abort the iteration — the following entry is still processed — while the
same input aborts `_search_sensors`. -/
theorem scan_timeout_continues_counterexample :
    scan_sensors [EntryStep.timeout, EntryStep.ok "a"] = ["a"] ∧
    search_sensors [EntryStep.timeout, EntryStep.ok "a"] = [] ∧
    (["a"] : List String) ≠ [] :=
  ⟨rfl, rfl, by decide⟩

/-- Claim C7 (amended): a mid-stream completion-code error aborts both
`_scan_sensors` and `_search_sensors` at that entry with the partial results
retained, and a timeout aborts `_search_sensors`; but in `_scan_sensors` a
timeout only skips the failing entry and the iteration continues. -/
theorem sdr_midstream_failure_amended (pre rest : List EntryStep) :
    scan_sensors (pre ++ EntryStep.ccError :: rest) = scan_sensors pre ∧
    search_sensors (pre ++ EntryStep.ccError :: rest) = search_sensors pre ∧
    search_sensors (pre ++ EntryStep.timeout :: rest) = search_sensors pre ∧
    (EntryStep.ccError ∉ pre →
      scan_sensors (pre ++ EntryStep.timeout :: rest) = scan_sensors pre ++ scan_sensors rest) := by
  induction pre with
  | nil =>
    refine ⟨rfl, rfl, rfl, fun _ => rfl⟩
  | cons e pre ih =>
    cases e with
    | ok n =>
      refine ⟨congrArg (List.cons n) ih.1, congrArg (List.cons n) ih.2.1,
        congrArg (List.cons n) ih.2.2.1, fun h => ?_⟩
      have h' : EntryStep.ccError ∉ pre := fun hm => h (List.mem_cons_of_mem _ hm)
      exact congrArg (List.cons n) (ih.2.2.2 h')
    | ccError =>
      exact ⟨rfl, rfl, rfl, fun h => absurd (List.mem_cons_self _ _) h⟩
    | timeout =>
      refine ⟨ih.1, rfl, rfl, fun h => ?_⟩
      have h' : EntryStep.ccError ∉ pre := fun hm => h (List.mem_cons_of_mem _ hm)
      exact ih.2.2.2 h'

/-- Witness for C7's amended theorem: a concrete scan with a leading
successful entry, a mid-stream timeout, and a trailing entry. -/
theorem sdr_midstream_failure_amended_witness :
    scan_sensors ([EntryStep.ok "a"] ++ EntryStep.timeout :: [EntryStep.ok "b"]) =
      scan_sensors [EntryStep.ok "a"] ++ scan_sensors [EntryStep.ok "b"] :=
  (sdr_midstream_failure_amended [EntryStep.ok "a"] [EntryStep.ok "b"]).2.2.2 (by decide)

end AtcaMonitor

namespace AtcaMonitor

/-! ## Claim C8 -/

/-- Claim C8 (counterexample): for a `device_id_string` containing a dot,
the `_scan_sensors` key replaces the dot with an underscore but the
`_search_sensors` key does not, so a pre-materialized leaf named with the
scan sanitization is not matched. -/
theorem search_name_dot_counterexample :
    scan_name dottedIdBytes = "A_B" ∧ search_name dottedIdBytes = "A.B" ∧
    search_matches [scan_name dottedIdBytes] dottedIdBytes = false := by
  refine ⟨?_, ?_, ?_⟩ <;> decide

/-- Claim C8 (amended): `_scan_sensors` sanitizes both spaces and dots while
`_search_sensors` only sanitizes spaces; whenever the decoded
`device_id_string` contains no dot the two keys agree, and a pre-materialized
leaf named with the scan sanitization is then matched by the search. -/
theorem sanitized_name_match_amended (bs : List Byte)
    (h : '.' ∉ (decodeIdString bs).data) :
    search_name bs = scan_name bs ∧ search_matches [scan_name bs] bs = true := by
  have key : scan_name bs = search_name bs := by
    unfold scan_name search_name pyReplaceChar
    refine congrArg String.mk ?_
    refine list_map_self _ _ fun c hc => ?_
    rcases List.mem_map.mp hc with ⟨c0, hc0, rfl⟩
    by_cases hsp : c0 = ' '
    · simp [hsp]
    · have : c0 ≠ '.' := fun he => h (he ▸ hc0)
      simp [hsp, this]
  refine ⟨key.symm, ?_⟩
  unfold search_matches
  rw [key]
  simp

/-- Witness for C8's amended theorem at a dotless `device_id_string`. -/
theorem sanitized_name_match_amended_witness :
    search_name spacedIdBytes = scan_name spacedIdBytes ∧
    search_matches [scan_name spacedIdBytes] spacedIdBytes = true :=
  sanitized_name_match_amended spacedIdBytes (by decide)

/-! ## Claim C9 -/

/-- Claim C9 (counterexample): a field name carrying surrounding spaces is
stripped by the decoder, while the claim's wording (replace every space with
an underscore) would keep them as underscores. -/
theorem fru_name_strip_counterexample :
    read_fru_product_info paddedNameRecord = [("a_b", "A")] ∧
    claimFruProductInfo paddedNameRecord = [("a_b_", "A")] ∧
    ("a_b" : String) ≠ "a_b_" := by
  refine ⟨?_, ?_, ?_⟩ <;> decide

end AtcaMonitor

namespace AtcaMonitor

/-- Each encoded byte contributes exactly two hex characters. -/
theorem hexOfBytes_length (bs : List Byte) : (hexOfBytes bs).length = 2 * bs.length := by
  induction bs with
  | nil => rfl
  | cons b bs ih => simp only [hexOfBytes, List.length_cons, ih]; omega

/-- Every digit produced by `hexDigit` on a value below 16 is a lowercase
hex character. -/
theorem hexDigit_contains : ∀ n < 16, hexCharList.contains (hexDigit n) = true := by decide

/-- Every character of a hex-encoded byte string is a lowercase hex digit. -/
theorem hexOfBytes_all_hex (bs : List Byte) :
    (hexOfBytes bs).all (fun c => hexCharList.contains c) = true := by
  induction bs with
  | nil => rfl
  | cons b bs ih =>
    have h1 : b.val / 16 < 16 := Nat.div_lt_of_lt_mul (by omega)
    have h2 : b.val % 16 < 16 := Nat.mod_lt _ (by omega)
    simp only [hexOfBytes, List.all_cons, ih, Bool.and_true]
    rw [hexDigit_contains _ h1, hexDigit_contains _ h2]
    rfl

/-- The decoder agrees with the amended filter-and-map description. -/
theorem read_fru_product_info_eq_amended (r : List (String × AreaVal)) :
    read_fru_product_info r = amendedFruProductInfo r := by
  induction r with
  | nil => rfl
  | cons p r ih =>
    obtain ⟨k, v⟩ := p
    cases v with
    | other => simpa [read_fru_product_info, amendedFruProductInfo, isFruField,
        List.filter_cons] using ih
    | fruField bs =>
      by_cases hk : k = "data"
      · simpa [read_fru_product_info, amendedFruProductInfo, isFruField,
          List.filter_cons, hk] using ih
      · simp only [read_fru_product_info, if_neg hk]
        unfold amendedFruProductInfo
        rw [List.filter_cons_of_pos (by simp [isFruField, hk]), List.map_cons]
        exact congrArg₂ List.cons rfl ih

/-- The key `name` is never produced by the decoder. -/
theorem read_fru_product_info_no_name (r : List (String × AreaVal)) :
    ((read_fru_product_info r).map Prod.fst).contains "name" = false := by
  induction r with
  | nil => rfl
  | cons p r ih =>
    obtain ⟨k, v⟩ := p
    cases v with
    | other => simpa [read_fru_product_info] using ih
    | fruField bs =>
      by_cases hk : k = "data"
      · simpa [read_fru_product_info, hk] using ih
      · simp only [read_fru_product_info, if_neg hk, List.map_cons, List.contains_cons, ih,
          Bool.or_false]
        by_cases hn : pyReplaceChar (pyStrip k) ' ' '_' = "name"
        · rw [if_pos hn]; decide
        · rw [if_neg hn]
          exact beq_eq_false_iff_ne.mpr fun he => hn he.symm

/-- Claim C9 (amended): the product-info decoder keeps exactly the
non-`data` `FruDataField`s; the field name is trimmed of surrounding
whitespace, its spaces become underscores, and a resulting `name` is
rewritten to `Name` (so the key `name` is never produced); `serial_number`
values are lowercase hex with two digits per byte (hence of even length,
twice the byte count); other values are whitespace-trimmed. -/
theorem fru_product_info_amended (r : List (String × AreaVal)) :
    read_fru_product_info r = amendedFruProductInfo r ∧
    ((read_fru_product_info r).map Prod.fst).contains "name" = false ∧
    (∀ bs : List Byte, (hexOfBytes bs).length = 2 * bs.length ∧
      (hexOfBytes bs).all (fun c => hexCharList.contains c) = true) :=
  ⟨read_fru_product_info_eq_amended r, read_fru_product_info_no_name r,
    fun bs => ⟨hexOfBytes_length bs, hexOfBytes_all_hex bs⟩⟩

end AtcaMonitor

namespace AtcaMonitor

/-- Running the per-slot cycles over a concatenation splits at the carried
flag. -/
theorem slot_flag_run_append (flag : Bool) (a b : List String) :
    slot_flag_run flag (a ++ b) =
      slot_flag_run flag a ++ slot_flag_run (flag_after flag a) b := by
  induction a generalizing flag with
  | nil => rfl
  | cons s a ih =>
    show slot_flag_step flag s :: slot_flag_run (slot_flag_step flag s).flag (a ++ b) =
      (slot_flag_step flag s :: slot_flag_run (slot_flag_step flag s).flag a) ++
        slot_flag_run (flag_after (slot_flag_step flag s).flag a) b
    rw [ih, List.cons_append]

/-- Cycles whose Carrier ID read is empty keep the armed flag and perform no
search, merge, or probe. -/
theorem slot_flag_run_empties (mid : List String) (h : ∀ s ∈ mid, s = "") :
    slot_flag_run true mid = mid.map (fun _ => ⟨true, 0, 0, 0, 0⟩) ∧
    flag_after true mid = true := by
  induction mid with
  | nil => exact ⟨rfl, rfl⟩
  | cons s ms ih =>
    have hs : s = "" := h s (List.mem_cons_self s ms)
    subst hs
    have ihr := ih fun x hx => h x (List.mem_cons_of_mem _ hx)
    refine ⟨?_, ?_⟩
    · simp only [slot_flag_run, List.map_cons]
      exact congrArg₂ List.cons rfl ihr.1
    · exact ihr.2

/-- Claim C5 (confirmed): for any slot, a cycle with an empty Carrier ID
read re-arms `need_search_sensors` (for either prior flag value); the
following empty-ID cycles keep it armed and do nothing; and the next cycle
with a non-empty ID performs exactly one `_search_sensors` call, one Carrier
product-info merge, two AMC ID probes and one RTM ID probe, after which the
flag is cleared and stays cleared for the remaining cycles. -/
theorem need_search_rearm_single_search (flag : Bool) (pre mid post : List String)
    (sK : String) (hmid : ∀ s ∈ mid, s = "") (hk : sK ≠ "") :
    slot_flag_run flag (pre ++ "" :: (mid ++ sK :: post)) =
      slot_flag_run flag pre ++
        ⟨true, 0, 0, 0, 0⟩ :: ((mid.map fun _ => ⟨true, 0, 0, 0, 0⟩) ++
          ⟨false, 1, 1, 2, 1⟩ :: slot_flag_run false post) := by
  rw [slot_flag_run_append]
  refine congrArg₂ (· ++ ·) rfl ?_
  have hstep : slot_flag_step (flag_after flag pre) "" = ⟨true, 0, 0, 0, 0⟩ := rfl
  show slot_flag_step (flag_after flag pre) "" ::
      slot_flag_run (slot_flag_step (flag_after flag pre) "").flag (mid ++ sK :: post) = _
  rw [hstep]
  refine congrArg₂ List.cons rfl ?_
  obtain ⟨hrun, hfa⟩ := slot_flag_run_empties mid hmid
  rw [slot_flag_run_append, hrun, hfa]
  refine congrArg₂ (· ++ ·) rfl ?_
  have hstep2 : slot_flag_step true sK = ⟨false, 1, 1, 2, 1⟩ := by
    simp [slot_flag_step, hk]
  show slot_flag_step true sK :: slot_flag_run (slot_flag_step true sK).flag post = _
  rw [hstep2]

/-- Witness for C5's theorem: a concrete hot-swap trace — present, removed
for two cycles, reinserted. -/
theorem need_search_rearm_single_search_witness :
    slot_flag_run false ["x", "", "", "y"] =
      [⟨false, 0, 0, 0, 0⟩, ⟨true, 0, 0, 0, 0⟩, ⟨true, 0, 0, 0, 0⟩, ⟨false, 1, 1, 2, 1⟩] :=
  need_search_rearm_single_search false ["x"] [""] [] "y" (by decide) (by decide)

end AtcaMonitor

namespace AtcaMonitor

/-! ## Claim C10 -/

/-- Claim C10 (confirmed): when a field's marker does not occur at or after
the current cursor, the EEPROM decoders do not fail: the search yields `-1`,
the emitted value is formatted from the remaining bytes minus the very last
one (`eeprom[s1:-1]`), and the next cursor becomes `step - 1`; in both
built-in maps every step is 1 or 2, so the walk resumes from position 0
or 1. -/
theorem eeprom_missing_marker_behavior (f : FieldSpec) (rest : List FieldSpec)
    (e : List Byte) (s1 : Nat)
    (hmiss : findIdxO f.marker (e.drop s1) = none) :
    decodeFields (f :: rest) (s1 : Int) e =
      (f.name, fmtBytes f.fmt ((e.drop s1).dropLast)) ::
        decodeFields rest (f.step - 1) e ∧
    bytesFind e f.marker (s1 : Int) = -1 ∧
    (∀ g ∈ amcMemMap, g.step = 1 ∨ g.step = 2) ∧
    (∀ g ∈ rtmMemMap, g.step = 1 ∨ g.step = 2) := by
  have hb := bytesFind_eq_neg_one e f.marker s1 hmiss
  refine ⟨?_, hb, by decide, by decide⟩
  show (f.name, fmtBytes f.fmt (pySlice e (s1 : Int) (bytesFind e f.marker (s1 : Int)))) ::
      decodeFields rest (bytesFind e f.marker (s1 : Int) + f.step) e = _
  rw [hb, pySlice_negOne]
  have hc : (-1 : Int) + f.step = f.step - 1 := by omega
  rw [hc]

/-- Witness for C10's theorem: a one-field map whose marker 0x00 is absent
from the dump past the cursor. -/
theorem eeprom_missing_marker_behavior_witness :
    decodeFields [⟨"Product_Asset_Tag", 0x00, 1, FmtKind.char⟩] ((2 : Nat) : Int)
        [0x01, 0x02, 0x03] =
      [("Product_Asset_Tag",
        fmtBytes FmtKind.char (([0x01, 0x02, 0x03].drop 2).dropLast))] :=
  (eeprom_missing_marker_behavior ⟨"Product_Asset_Tag", 0x00, 1, FmtKind.char⟩ []
    [0x01, 0x02, 0x03] 2 (by decide)).1

end AtcaMonitor

namespace AtcaMonitor

/-! ## Claim C3 -/

/-- Every cycle record's sleep follows the deficit rule against its measured
period. -/
theorem poll_run_sleep_rule (minP : ℚ) :
    ∀ (ws : List ℚ) (st : PollSt) (k : Nat) (r : CycleRec),
      nthO (poll_run minP st ws) k = some r →
      r.slp = if r.period < minP then minP - r.period else 0 := by
  intro ws
  induction ws with
  | nil => intro st k r h; simp [poll_run, nthO] at h
  | cons w ws ih =>
    intro st k r h
    cases k with
    | zero =>
      have hr : (⟨st.start, st.start + w, st.start + w - st.ref,
          if st.start + w - st.ref < minP then minP - (st.start + w - st.ref) else 0⟩ :
            CycleRec) = r := by
        simpa [poll_run, nthO] using h
      rw [← hr]
    | succ k => exact ih _ k r h

/-- The first record of a run starting from a fresh state: its start is the
state's start and its period is measured against the state's reference. -/
theorem poll_run_head (minP : ℚ) (ws : List ℚ) (st : PollSt) (r : CycleRec)
    (h : nthO (poll_run minP st ws) 0 = some r) :
    r.start = st.start ∧ r.period = r.workEnd - st.ref := by
  cases ws with
  | nil => simp [poll_run, nthO] at h
  | cons w ws =>
    have hr : (⟨st.start, st.start + w, st.start + w - st.ref,
        if st.start + w - st.ref < minP then minP - (st.start + w - st.ref) else 0⟩ :
          CycleRec) = r := by
      simpa [poll_run, nthO] using h
    rw [← hr]
    exact ⟨rfl, rfl⟩

/-- Two consecutive cycle records: the later one starts after the earlier
one's work plus its sleep, and its measured period spans from the earlier
work's end (which includes the earlier sleep). -/
theorem poll_run_adjacent (minP : ℚ) :
    ∀ (ws : List ℚ) (st : PollSt) (k : Nat) (r r' : CycleRec),
      nthO (poll_run minP st ws) k = some r →
      nthO (poll_run minP st ws) (k + 1) = some r' →
      r'.start = r.workEnd + r.slp ∧ r'.period = r'.workEnd - r.workEnd := by
  intro ws
  induction ws with
  | nil => intro st k r r' h _; simp [poll_run, nthO] at h
  | cons w ws ih =>
    intro st k r r' h h'
    cases k with
    | zero =>
      have hr : (⟨st.start, st.start + w, st.start + w - st.ref,
          if st.start + w - st.ref < minP then minP - (st.start + w - st.ref) else 0⟩ :
            CycleRec) = r := by
        simpa [poll_run, nthO] using h
      have h'0 : nthO (poll_run minP
          ⟨st.start + w + (if st.start + w - st.ref < minP
              then minP - (st.start + w - st.ref) else 0), st.start + w⟩ ws) 0 = some r' := h'
      obtain ⟨ha, hb⟩ := poll_run_head minP ws _ r' h'0
      rw [← hr]
      exact ⟨ha, hb⟩
    | succ k => exact ih _ k r r' h h'

/-- Claim C3 (counterexample): with `min_poll_period = 10` and work durations
2, 1, 1, the cycle starts are 0, 10, 12 — the gap between the second and
third cycle starts is 2, far below the minimum, because the second cycle's
measured period (9) includes the first cycle's sleep (8). -/
theorem poll_second_gap_counterexample :
    (poll_run 10 ⟨0, 0⟩ [2, 1, 1]).map CycleRec.start = [0, 10, 12] ∧
    ¬ ((10 : ℚ) ≤ 12 - 10) := by
  constructor
  · norm_num [poll_run]
  · norm_num

/-- Claim C3 (amended): every cycle sleeps exactly the deficit when its
measured period is below the minimum and does not sleep otherwise; the
second cycle starts at least `min_poll_period` after the first cycle began;
but for later cycles the measured period includes the previous sleep, and
what is guaranteed is only that cycle `k+2` starts at least
`min_poll_period` after the end of cycle `k`'s work. -/
theorem poll_min_period_amended (minP t0 : ℚ) (ws : List ℚ) :
    (∀ (k : Nat) (r : CycleRec), nthO (poll_run minP ⟨t0, t0⟩ ws) k = some r →
      r.slp = if r.period < minP then minP - r.period else 0) ∧
    (∀ r0 r1 : CycleRec, nthO (poll_run minP ⟨t0, t0⟩ ws) 0 = some r0 →
      nthO (poll_run minP ⟨t0, t0⟩ ws) 1 = some r1 → minP ≤ r1.start - r0.start) ∧
    (∀ (k : Nat) (rp r r' : CycleRec), nthO (poll_run minP ⟨t0, t0⟩ ws) k = some rp →
      nthO (poll_run minP ⟨t0, t0⟩ ws) (k + 1) = some r →
      nthO (poll_run minP ⟨t0, t0⟩ ws) (k + 2) = some r' →
      rp.workEnd + minP ≤ r'.start) := by
  refine ⟨poll_run_sleep_rule minP ws _, ?_, ?_⟩
  · intro r0 r1 h0 h1
    obtain ⟨hs, hp⟩ := poll_run_head minP ws _ r0 h0
    obtain ⟨ha, _⟩ := poll_run_adjacent minP ws _ 0 r0 r1 h0 h1
    have hrule := poll_run_sleep_rule minP ws _ 0 r0 h0
    by_cases hlt : r0.period < minP
    · rw [if_pos hlt] at hrule
      rw [ha, hs, hrule, hp]
      ring_nf
      linarith
    · rw [if_neg hlt] at hrule
      rw [ha, hs, hrule, hp] at *
      linarith [not_lt.mp hlt]
  · intro k rp r r' hp hr hr'
    obtain ⟨_, hperiod⟩ := poll_run_adjacent minP ws _ k rp r hp hr
    obtain ⟨hstart, _⟩ := poll_run_adjacent minP ws _ (k + 1) r r' hr hr'
    have hrule := poll_run_sleep_rule minP ws _ (k + 1) r hr
    by_cases hlt : r.period < minP
    · rw [if_pos hlt] at hrule
      rw [hstart, hrule, hperiod]
      linarith
    · rw [if_neg hlt] at hrule
      rw [hstart, hrule, hperiod] at *
      linarith [not_lt.mp hlt]

/-- Witness for C3's amended theorem on the counterexample trace: the third
cycle starts exactly 10 after the end of the first cycle's work. -/
theorem poll_min_period_amended_witness : (2 : ℚ) + 10 ≤ 12 :=
  (poll_min_period_amended 10 0 [2, 1, 1]).2.2 0 ⟨0, 2, 2, 8⟩ ⟨10, 11, 9, 1⟩ ⟨12, 13, 2, 8⟩
    (by norm_num [poll_run, nthO]) (by norm_num [poll_run, nthO]) (by norm_num [poll_run, nthO])

end AtcaMonitor

namespace AtcaMonitor

/-! ## Claim C6 -/

/-- Claim C6 (counterexample): `dumpMarkersOnceBad` satisfies the claim's
hypothesis — every AMC marker occurs exactly once at or after the starting
cursor 0x4c — yet the decoder's output differs from the claim's description,
because `Product_Part_Number`'s unique marker occurrence lies before the
cursor reached after the first field, so the decoder's search misses it. -/
theorem eeprom_marker_position_counterexample :
    (amcMemMap.all fun f =>
      countO f.marker (dumpMarkersOnceBad.drop 0x4c) == 1) = true ∧
    decodeFields amcMemMap (0x4c : Int) dumpMarkersOnceBad ≠
      claimDecodeFields amcMemMap (0x4c : Int) (0x4c : Int) dumpMarkersOnceBad := by
  constructor
  · decide
  · decide

/-- The decoder's find-based walk agrees with the claim's unique-position
walk whenever each marker occurs exactly once at or after the starting
cursor, the steps are non-negative, and every search of the walk succeeds. -/
theorem decode_eq_claim_aux (e : List Byte) (start0 : Nat) :
    ∀ (map : List FieldSpec) (s1 : Int),
      (∀ f ∈ map, countO f.marker (e.drop start0) = 1) →
      (∀ f ∈ map, 0 ≤ f.step) →
      (start0 : Int) ≤ s1 →
      decodeFindsOk map s1 e = true →
      decodeFields map s1 e = claimDecodeFields map (start0 : Int) s1 e := by
  intro map
  induction map with
  | nil => intro s1 _ _ _ _; rfl
  | cons f rest ih =>
    intro s1 honce hstep hle hok
    simp only [decodeFindsOk, Bool.and_eq_true, decide_eq_true_eq] at hok
    obtain ⟨hpos, hoktail⟩ := hok
    have hs1nn : 0 ≤ s1 := le_trans (by exact_mod_cast Int.ofNat_nonneg start0) hle
    have hs1 : s1 = (s1.toNat : Int) := (Int.toNat_of_nonneg hs1nn).symm
    have hps : pyStart e.length s1 = s1.toNat := by
      unfold pyStart
      rw [if_neg (not_lt.mpr hs1nn)]
    rcases hfi : findIdxO f.marker (e.drop s1.toNat) with _ | i
    · exfalso
      have : bytesFind e f.marker s1 = -1 := by
        unfold bytesFind; rw [hps, hfi]
      rw [this] at hpos
      omega
    · have hfind : bytesFind e f.marker s1 = ((s1.toNat + i : Nat) : Int) := by
        unfold bytesFind; rw [hps, hfi]
      have hkk : start0 ≤ s1.toNat := by
        have := hle
        rw [hs1] at this
        exact_mod_cast this
      have hdrop : (e.drop start0).drop (s1.toNat - start0) = e.drop s1.toNat := by
        rw [List.drop_drop]
        congr 1
        omega
      have honcef := honce f (List.mem_cons_self f rest)
      have huniq := findIdxO_drop_unique f.marker (s1.toNat - start0) (e.drop start0) i
        honcef (by rw [hdrop]; exact hfi)
      have hfind0 : bytesFind e f.marker (start0 : Int) = ((s1.toNat + i : Nat) : Int) := by
        unfold bytesFind
        rw [pyStart_natCast, huniq]
        have heq : start0 + (s1.toNat - start0 + i) = s1.toNat + i := by omega
        exact congrArg (fun n : Nat => (n : Int)) heq
      simp only [decodeFields, claimDecodeFields]
      rw [hfind, hfind0]
      refine congrArg₂ List.cons rfl ?_
      rw [hfind] at hoktail
      refine ih (((s1.toNat + i : Nat) : Int) + f.step)
        (fun g hg => honce g (List.mem_cons_of_mem f hg))
        (fun g hg => hstep g (List.mem_cons_of_mem f hg)) ?_ hoktail
      have hstepf := hstep f (List.mem_cons_self f rest)
      have : (start0 : Int) ≤ ((s1.toNat + i : Nat) : Int) := by
        push_cast
        omega
      omega

/-- Claim C6 (amended): for a dump in which every marker occurs exactly once
at or after the starting cursor *and* each field's search from the running
cursor succeeds (the unique occurrences are cursor-compatible), the decoder
processes the fields in declared map order and its output is exactly the
claim's description: field `k` is formatted from `[s1_k, s2_k)` where `s2_k`
is the position of field `k`'s marker and `s1_{k+1} = s2_k + step_k`. -/
theorem eeprom_decode_unique_markers_amended (map : List FieldSpec) (e : List Byte)
    (start0 : Nat)
    (honce : ∀ f ∈ map, countO f.marker (e.drop start0) = 1)
    (hstep : ∀ f ∈ map, 0 ≤ f.step)
    (hok : decodeFindsOk map (start0 : Int) e = true) :
    decodeFields map (start0 : Int) e = claimDecodeFields map (start0 : Int) (start0 : Int) e :=
  decode_eq_claim_aux e start0 map (start0 : Int) honce hstep le_rfl hok

/-- Witness for C6's amended theorem on a well-formed AMC dump. -/
theorem eeprom_decode_unique_markers_amended_witness :
    decodeFields amcMemMap ((0x4c : Nat) : Int) dumpMarkersOnceGood =
      claimDecodeFields amcMemMap ((0x4c : Nat) : Int) ((0x4c : Nat) : Int)
        dumpMarkersOnceGood :=
  eeprom_decode_unique_markers_amended amcMemMap dumpMarkersOnceGood 0x4c
    (by decide) (by decide) (by decide)

end AtcaMonitor
